import Mathlib

/-!
Verification of the mdp-dedupe deduplication pipeline.

This file gives a shallow embedding of the parts of the repository that the
checked properties talk about:

  * the dynamic (Python-like) `Value` type used for dataframe cells and the
    YAML configuration tree (floats are modelled as exact rationals, so the
    binary floating-point representation itself is not modelled);
  * `Config.get` from `src/mdp_dedupe/config/__init__.py`;
  * the field normalizers from `src/mdp_dedupe/scripts/data_preprocessing.py`;
  * the full-name splitting regexes of `preprocess_source_data`;
  * `prepare_dedupe_data`, the control flow of `deduplicate_records`, and the
    result writer from `src/mdp_dedupe/core/dedup_match.py`;
  * the model-saving file operations of `setup_dedupe`;
  * the error handling of `run_deduplication` / `main` from
    `src/mdp_dedupe/__main__.py`.

External library calls (`pandas.to_datetime`, the `dedupe` package's
training and `partition`) are treated as parameters, and where a claim is
decided by a component absent from the repository (graph clustering) the
component is modelled from the specification and marked as such.
-/

namespace MdpDedupe

/-- Python-like dynamic values as they appear in dataframe cells and in the
YAML configuration tree. Floating-point numbers are modelled as exact
rationals; `null` stands for Python `None` (and pandas NA/NaT). -/
inductive Value : Type
  | null : Value
  | str (s : List Char) : Value
  | int (n : Int) : Value
  | num (q : ℚ) : Value
  | bool (b : Bool) : Value
  | dict (entries : List (String × Value)) : Value

/-- Python truthiness (`bool(value)`) for the modelled values: `None`, `0`,
`0.0`, `False`, the empty string and the empty mapping are falsy. -/
def pyFalsy : Value → Bool
  | .null => true
  | .str s => s.isEmpty
  | .int n => n == 0
  | .num q => q == 0
  | .bool b => !b
  | .dict es => es.isEmpty

/-- Lookup in a Python dict modelled as an insertion-ordered association
list (keys are unique, so the first match is the binding). -/
def dictGet (es : List (String × Value)) (k : String) : Option Value :=
  (es.find? (fun p => p.1 == k)).map (fun p => p.2)

/-- Embedding of `Config.get` (config/__init__.py, lines 142-160): walk the
dot-separated key path; at each step a non-dict value returns the default,
the key is read with `value.get(k, {})`, and a falsy intermediate or final
value returns the default; the final `return value or default` is the
base case. -/
def configGet : Value → List String → Value → Value
  | v, [], d => if pyFalsy v then d else v
  | v, k :: ks, d =>
    match v with
    | .dict es =>
      let v2 := (dictGet es k).getD (.dict [])
      if pyFalsy v2 then d else configGet v2 ks d
    | _ => d

/-- Plain recursive lookup of a key path in the configuration tree: the
value actually stored at that path, with no defaulting. Used to state what
"the stored value" of a key is. -/
def walkPath : Value → List String → Option Value
  | v, [] => some v
  | v, k :: ks =>
    match v with
    | .dict es =>
      match dictGet es k with
      | some v2 => walkPath v2 ks
      | none => none
    | _ => none

/-- A configuration whose `dedupe.threshold` is explicitly set to `0.0`. -/
def exampleThresholdZeroCfg : Value :=
  .dict [("paths", .dict [("models", .str "models".toList)]),
         ("dedupe", .dict [("threshold", .num 0)])]

theorem configGet_default_of_walk_falsy
    (cfg : Value) (path : List String) (dflt v : Value)
    (hw : walkPath cfg path = some v) (hf : pyFalsy v = true) :
    configGet cfg path dflt = dflt := by
  induction path generalizing cfg with
  | nil =>
    simp only [walkPath, Option.some.injEq] at hw
    subst hw
    simp [configGet, hf]
  | cons k ks ih =>
    cases cfg with
    | dict es =>
      simp only [walkPath] at hw
      cases hg : dictGet es k with
      | none => rw [hg] at hw; exact absurd hw (by simp)
      | some v2 =>
        rw [hg] at hw
        simp only [configGet, hg, Option.getD_some]
        by_cases hv2 : pyFalsy v2 = true
        · simp [hv2]
        · simp only [Bool.not_eq_true] at hv2
          rw [hv2, if_neg (by simp)]
          exact ih v2 hw
    | null => simp [walkPath] at hw
    | str s => simp [walkPath] at hw
    | int n => simp [walkPath] at hw
    | num q => simp [walkPath] at hw
    | bool b => simp [walkPath] at hw

/-- C9: for every configuration key whose stored value is falsy (0, 0.0,
empty string, empty mapping, or False), `Config.get` returns the supplied
default instead of the stored value; in particular a `dedupe.threshold`
explicitly configured as 0.0 is read back as the default 0.5. -/
theorem C9_config_get_falsy_returns_default :
    (∀ (cfg : Value) (path : List String) (dflt v : Value),
        walkPath cfg path = some v → pyFalsy v = true →
        configGet cfg path dflt = dflt)
    ∧ configGet exampleThresholdZeroCfg ["dedupe", "threshold"]
        (Value.num (1/2)) = Value.num (1/2) := by
  constructor
  · exact configGet_default_of_walk_falsy
  · rfl

/-- Witness for C9: the stored value `0.0` of `dedupe.threshold` in the
concrete configuration is falsy, and `Config.get` returns the default. -/
theorem C9_witness :
    configGet exampleThresholdZeroCfg ["dedupe", "threshold"] (Value.num 1)
      = Value.num 1 :=
  C9_config_get_falsy_returns_default.1 exampleThresholdZeroCfg
    ["dedupe", "threshold"] (Value.num 1) (Value.num 0) (by rfl) (by decide)

/-! ### Field normalizers (scripts/data_preprocessing.py)

Strings are modelled as `List Char` (ASCII behaviour; the repository's data
is ASCII and no claim exercises the unicode cases of `str.strip`,
`str.lower`, `str.isdigit` or the regex class `\s`). -/

/-- ASCII whitespace: the characters stripped by Python's default
`str.strip` and matched by the regex class `\s` (space, tab, newline,
carriage return, vertical tab, form feed). -/
def isSpaceCh (c : Char) : Bool :=
  c.toNat == 32 || c.toNat == 9 || c.toNat == 10 ||
  c.toNat == 13 || c.toNat == 11 || c.toNat == 12

/-- ASCII decimal digit, as tested by Python's `str.isdigit`. -/
def isDigitCh (c : Char) : Bool :=
  48 ≤ c.toNat && c.toNat ≤ 57

/-- ASCII case folding of a single character, as done by `str.lower`. -/
def toLowerCh (c : Char) : Char :=
  if 65 ≤ c.toNat && c.toNat ≤ 90 then Char.ofNat (c.toNat + 32) else c

/-- Removal of leading whitespace (the left half of `str.strip`). -/
def ltrim (l : List Char) : List Char := l.dropWhile isSpaceCh

/-- Removal of trailing whitespace (the right half of `str.strip`). -/
def rtrim (l : List Char) : List Char := (ltrim l.reverse).reverse

/-- Python `str.strip()`: remove leading and trailing whitespace. -/
def stripWs (l : List Char) : List Char := rtrim (ltrim l)

/-- Python `str.lower()` on ASCII text. -/
def lowerAscii (l : List Char) : List Char := l.map toLowerCh

/-- pandas `pd.isnull` on the modelled values: only the null value (None /
NA / NaT) is considered missing. -/
def pdIsNull : Value → Bool
  | .null => true
  | _ => false

/-- Python `str()` of a value, as far as the claims need it: `str` of a
string is the string itself, ints and booleans render in the Python style.
No claim depends on the exact rendering of floats or nested dicts, which is
therefore schematic. -/
def pyStr : Value → List Char
  | .null => "None".toList
  | .str s => s
  | .int n => (toString n).toList
  | .num q => (toString q).toList
  | .bool b => if b then "True".toList else "False".toList
  | .dict _ => [Char.ofNat 123, Char.ofNat 125]

/-- Embedding of `normalize_text` (data_preprocessing.py, lines 12-23):
null maps to None, anything else to `str(value).strip().lower()`. -/
def normalize_text (v : Value) : Option (List Char) :=
  if pdIsNull v then none else some (lowerAscii (stripWs (pyStr v)))

/-- Embedding of `normalize_phone` (data_preprocessing.py, lines 25-36):
null maps to None, anything else keeps only the digits of `str(phone)`. -/
def normalize_phone (v : Value) : Option (List Char) :=
  if pdIsNull v then none else some ((pyStr v).filter isDigitCh)

/-- A calendar timestamp as produced by `pandas.to_datetime` (only the
fields that the default `%Y-%m-%d` output format reads). -/
structure Ts where
  year : Nat
  month : Nat
  day : Nat

/-- The character of a decimal digit. -/
def digitCh (m : Nat) : Char := Char.ofNat (48 + m % 10)

/-- Two-digit zero-padded rendering (`%m`, `%d`), faithful for values
below 100 (pandas months and days are in range). -/
def pad2 (n : Nat) : List Char := [digitCh (n / 10), digitCh n]

/-- Four-digit zero-padded rendering (`%Y`), faithful for years below
10000 (pandas timestamps reach at most year 2262). -/
def pad4 (n : Nat) : List Char :=
  [digitCh (n / 1000), digitCh (n / 100), digitCh (n / 10), digitCh n]

/-- `strftime` with `normalize_date`'s default format `"%Y-%m-%d"`. -/
def strftimeYmd (t : Ts) : List Char :=
  pad4 t.year ++ '-' :: pad2 t.month ++ '-' :: pad2 t.day

/-- Embedding of `normalize_date` (data_preprocessing.py, lines 38-60).
The permissive parser `pandas.to_datetime(date, errors="coerce")` is an
external library call and is a parameter `toDatetime`; a None/NaT result
(or a parsing exception, which the source also converts to None) yields
`(none, true)`, the Boolean recording that a warning was printed. -/
def normalize_date (toDatetime : Value → Option Ts) (v : Value) :
    Option (List Char) × Bool :=
  if pdIsNull v then (none, false)
  else
    match toDatetime v with
    | none => (none, true)
    | some t => (some (strftimeYmd t), false)

/-- Embedding of `flatten_address` (data_preprocessing.py, lines 62-75):
a dict flattens to the comma-joined `str()` of its truthy values in
insertion order; null maps to None; any other value maps to `str(value)`. -/
def flatten_address : Value → Option (List Char)
  | .dict es =>
    some (List.intercalate ", ".toList
      (((es.map (fun p => p.2)).filter (fun w => !pyFalsy w)).map pyStr))
  | v => if pdIsNull v then none else some (pyStr v)

/-- Shape of an ISO `YYYY-MM-DD` string. -/
def isIsoShape : List Char → Bool
  | [y1, y2, y3, y4, h1, m1, m2, h2, d1, d2] =>
    isDigitCh y1 && isDigitCh y2 && isDigitCh y3 && isDigitCh y4 &&
    h1 == '-' && h2 == '-' &&
    isDigitCh m1 && isDigitCh m2 && isDigitCh d1 && isDigitCh d2
  | _ => false

theorem isDigitCh_digitCh (m : Nat) : isDigitCh (digitCh m) = true := by
  have h : m % 10 < 10 := Nat.mod_lt _ (by norm_num)
  unfold digitCh
  set r := m % 10 with hr
  interval_cases r <;> decide

theorem isIsoShape_strftimeYmd (t : Ts) : isIsoShape (strftimeYmd t) = true := by
  simp [strftimeYmd, pad4, pad2, isIsoShape, isDigitCh_digitCh]

/-- C6: for every input value, the field normalizers never raise an
exception on malformed content: `normalize_date` returns either an ISO
`YYYY-MM-DD` string or null, emitting a warning when a non-null input is
unparsable, and `normalize_text`, `normalize_phone` and `flatten_address`
likewise return a value or null for every input. (All four embeddings are
total Lean functions, so the "never raises" part is witnessed by the shape
of each result.) -/
theorem C6_normalizers_never_raise (toDatetime : Value → Option Ts) (v : Value) :
    ((normalize_date toDatetime v).1 = none ∨
      ∃ s, (normalize_date toDatetime v).1 = some s ∧ isIsoShape s = true)
    ∧ (pdIsNull v = false → toDatetime v = none →
        normalize_date toDatetime v = (none, true))
    ∧ (normalize_text v = none ∨ ∃ s, normalize_text v = some s)
    ∧ (normalize_phone v = none ∨ ∃ s, normalize_phone v = some s)
    ∧ (flatten_address v = none ∨ ∃ s, flatten_address v = some s) := by
  refine ⟨?_, ?_, ?_, ?_, ?_⟩
  · unfold normalize_date
    by_cases hn : pdIsNull v = true
    · simp [hn]
    · simp only [Bool.not_eq_true] at hn
      cases hd : toDatetime v with
      | none => simp [hn, hd]
      | some t => exact Or.inr ⟨strftimeYmd t, by simp [hn, hd], isIsoShape_strftimeYmd t⟩
  · intro hn hd
    unfold normalize_date
    simp [hn, hd]
  · unfold normalize_text
    by_cases hn : pdIsNull v = true
    · simp [hn]
    · simp only [Bool.not_eq_true] at hn
      exact Or.inr ⟨lowerAscii (stripWs (pyStr v)), by simp [hn]⟩
  · unfold normalize_phone
    by_cases hn : pdIsNull v = true
    · simp [hn]
    · simp only [Bool.not_eq_true] at hn
      exact Or.inr ⟨(pyStr v).filter isDigitCh, by simp [hn]⟩
  · cases v with
    | null => exact Or.inl rfl
    | dict es => exact Or.inr ⟨_, rfl⟩
    | str s => exact Or.inr ⟨_, rfl⟩
    | int n => exact Or.inr ⟨_, rfl⟩
    | num q => exact Or.inr ⟨_, rfl⟩
    | bool b => exact Or.inr ⟨_, rfl⟩

/-- A degenerate stand-in for `pandas.to_datetime` that parses nothing,
used to instantiate the parser-parameterised theorems at a concrete input. -/
def toDatetimeNone : Value → Option Ts := fun _ => none

/-- Witness for C6: on the unparsable non-null input "not a date" the
embedded `normalize_date` returns null and emits a warning. -/
theorem C6_witness :
    normalize_date toDatetimeNone (Value.str "not a date".toList) = (none, true) :=
  (C6_normalizers_never_raise toDatetimeNone
    (Value.str "not a date".toList)).2.1 (by rfl) (by rfl)

/-! ### Idempotence of normalization (claim C8) -/

theorem charShift_toNat (n : Nat) (h1 : 65 ≤ n) (h2 : n ≤ 90) :
    (Char.ofNat (n + 32)).toNat = n + 32 := by
  interval_cases n <;> decide

theorem toLowerCh_idem (c : Char) : toLowerCh (toLowerCh c) = toLowerCh c := by
  by_cases h : (65 ≤ c.toNat && c.toNat ≤ 90) = true
  · have hb : 65 ≤ c.toNat ∧ c.toNat ≤ 90 := by simpa using h
    have h2 : (Char.ofNat (c.toNat + 32)).toNat = c.toNat + 32 :=
      charShift_toNat c.toNat hb.1 hb.2
    have h1 : toLowerCh c = Char.ofNat (c.toNat + 32) := by
      unfold toLowerCh; rw [if_pos h]
    rw [h1]
    unfold toLowerCh
    rw [if_neg (by rw [h2]; simp; omega)]
  · have h1 : toLowerCh c = c := by unfold toLowerCh; rw [if_neg h]
    rw [h1, h1]

theorem isSpaceCh_eq_false_of_ge (c : Char) (h : 65 ≤ c.toNat) :
    isSpaceCh c = false := by
  unfold isSpaceCh
  simp only [Bool.or_eq_false_iff, beq_eq_false_iff_ne, ne_eq]
  omega

theorem isSpaceCh_toLowerCh (c : Char) : isSpaceCh (toLowerCh c) = isSpaceCh c := by
  by_cases h : (65 ≤ c.toNat && c.toNat ≤ 90) = true
  · have hb : 65 ≤ c.toNat ∧ c.toNat ≤ 90 := by simpa using h
    have h2 : (Char.ofNat (c.toNat + 32)).toNat = c.toNat + 32 :=
      charShift_toNat c.toNat hb.1 hb.2
    have h1 : toLowerCh c = Char.ofNat (c.toNat + 32) := by
      unfold toLowerCh; rw [if_pos h]
    rw [h1, isSpaceCh_eq_false_of_ge _ (by omega),
        isSpaceCh_eq_false_of_ge c (by omega)]
  · have h1 : toLowerCh c = c := by unfold toLowerCh; rw [if_neg h]
    rw [h1]

theorem dropWhile_head_false {α : Type} {p : α → Bool} :
    ∀ (l : List α) {c : α} {t : List α}, l.dropWhile p = c :: t → p c = false := by
  intro l
  induction l with
  | nil => intro c t h; simp [List.dropWhile] at h
  | cons x xs ih =>
    intro c t h
    rw [List.dropWhile_cons] at h
    by_cases hx : p x = true
    · rw [if_pos hx] at h; exact ih h
    · rw [if_neg hx] at h
      cases h
      simpa using hx

theorem getLast?_dropWhile {α : Type} (p : α → Bool) :
    ∀ (l : List α), l.dropWhile p ≠ [] →
      (l.dropWhile p).getLast? = l.getLast? := by
  intro l
  induction l with
  | nil => intro h; simp [List.dropWhile] at h
  | cons x xs ih =>
    intro h
    rw [List.dropWhile_cons] at h ⊢
    by_cases hx : p x = true
    · rw [if_pos hx] at h ⊢
      have hxs : xs ≠ [] := by
        intro he; rw [he] at h; simp [List.dropWhile] at h
      rw [ih h]
      cases xs with
      | nil => exact absurd rfl hxs
      | cons y ys => rw [List.getLast?_cons_cons]
    · rw [if_neg hx]

theorem ltrim_idem (l : List Char) : ltrim (ltrim l) = ltrim l := by
  unfold ltrim
  cases h : l.dropWhile isSpaceCh with
  | nil => simp
  | cons c t =>
    have hc := dropWhile_head_false l h
    rw [List.dropWhile_cons, if_neg (by simp [hc])]

theorem rtrim_idem (l : List Char) : rtrim (rtrim l) = rtrim l := by
  unfold rtrim
  rw [List.reverse_reverse, ltrim_idem]

theorem head?_rtrim (l : List Char) (h : rtrim l ≠ []) :
    (rtrim l).head? = l.head? := by
  unfold rtrim at h ⊢
  rw [List.head?_reverse]
  have hne : ltrim l.reverse ≠ [] := by
    intro he; rw [he] at h; simp at h
  unfold ltrim at hne ⊢
  rw [getLast?_dropWhile _ _ hne, List.getLast?_reverse]

theorem ltrim_rtrim_ltrim (l : List Char) :
    ltrim (rtrim (ltrim l)) = rtrim (ltrim l) := by
  cases h : rtrim (ltrim l) with
  | nil => simp [ltrim, List.dropWhile]
  | cons c t =>
    have hh : (rtrim (ltrim l)).head? = (ltrim l).head? :=
      head?_rtrim _ (by rw [h]; simp)
    rw [h] at hh
    have hc : isSpaceCh c = false := by
      cases hl : ltrim l with
      | nil => rw [hl] at h; simp [rtrim, ltrim, List.dropWhile] at h
      | cons c2 t2 =>
        rw [hl] at hh
        simp only [List.head?_cons, Option.some.injEq] at hh
        have hc2 : isSpaceCh c2 = false := by
          unfold ltrim at hl
          exact dropWhile_head_false l hl
        rw [hh]; exact hc2
    unfold ltrim
    rw [List.dropWhile_cons, if_neg (by simp [hc])]

theorem stripWs_idem (l : List Char) : stripWs (stripWs l) = stripWs l := by
  unfold stripWs
  rw [ltrim_rtrim_ltrim, rtrim_idem]

theorem ltrim_lowerAscii (l : List Char) :
    ltrim (lowerAscii l) = lowerAscii (ltrim l) := by
  unfold ltrim lowerAscii
  rw [List.dropWhile_map]
  have he : (isSpaceCh ∘ toLowerCh) = isSpaceCh := funext isSpaceCh_toLowerCh
  rw [he]

theorem rtrim_lowerAscii (l : List Char) :
    rtrim (lowerAscii l) = lowerAscii (rtrim l) := by
  unfold rtrim
  have h1 : (lowerAscii l).reverse = lowerAscii l.reverse := by
    unfold lowerAscii; rw [List.map_reverse]
  rw [h1, ltrim_lowerAscii]
  unfold lowerAscii
  rw [List.map_reverse]

theorem stripWs_lowerAscii (l : List Char) :
    stripWs (lowerAscii l) = lowerAscii (stripWs l) := by
  unfold stripWs
  rw [ltrim_lowerAscii, rtrim_lowerAscii]

theorem lowerAscii_idem (l : List Char) :
    lowerAscii (lowerAscii l) = lowerAscii l := by
  unfold lowerAscii
  rw [List.map_map]
  congr 1
  funext c
  exact toLowerCh_idem c

theorem normText_core_idem (s : List Char) :
    lowerAscii (stripWs (lowerAscii (stripWs s))) = lowerAscii (stripWs s) := by
  rw [stripWs_lowerAscii, stripWs_idem, lowerAscii_idem]

/-- Conversion of a normalizer's optional string result back into a cell
value, as it is stored in the dataframe column. -/
def optStrValue : Option (List Char) → Value
  | none => .null
  | some s => .str s

/-- The final per-field coercion of `preprocess_source_data` (line 117):
`str(x) if pd.notnull(x) else None`. -/
def coerceStr (v : Value) : Value :=
  if pdIsNull v then .null else .str (pyStr v)

theorem coerce_optStrValue (o : Option (List Char)) :
    coerceStr (optStrValue o) = optStrValue o := by
  cases o <;> rfl

theorem normalize_text_idem (v : Value) :
    normalize_text (optStrValue (normalize_text v)) = normalize_text v := by
  by_cases hn : pdIsNull v = true
  · have h1 : normalize_text v = none := by unfold normalize_text; rw [if_pos hn]
    rw [h1]; rfl
  · simp only [Bool.not_eq_true] at hn
    have h1 : normalize_text v = some (lowerAscii (stripWs (pyStr v))) := by
      unfold normalize_text; rw [if_neg (by simp [hn])]
    rw [h1]
    show normalize_text (Value.str (lowerAscii (stripWs (pyStr v))))
      = some (lowerAscii (stripWs (pyStr v)))
    unfold normalize_text
    rw [if_neg (by simp [pdIsNull])]
    show some (lowerAscii (stripWs (lowerAscii (stripWs (pyStr v))))) = _
    rw [normText_core_idem]

theorem normalize_phone_idem (v : Value) :
    normalize_phone (optStrValue (normalize_phone v)) = normalize_phone v := by
  by_cases hn : pdIsNull v = true
  · have h1 : normalize_phone v = none := by unfold normalize_phone; rw [if_pos hn]
    rw [h1]; rfl
  · simp only [Bool.not_eq_true] at hn
    have h1 : normalize_phone v = some ((pyStr v).filter isDigitCh) := by
      unfold normalize_phone; rw [if_neg (by simp [hn])]
    rw [h1]
    show normalize_phone (Value.str ((pyStr v).filter isDigitCh))
      = some ((pyStr v).filter isDigitCh)
    unfold normalize_phone
    rw [if_neg (by simp [pdIsNull])]
    show some (((pyStr v).filter isDigitCh).filter isDigitCh) = _
    rw [List.filter_filter]
    simp

theorem flatten_address_idem (v : Value) :
    flatten_address (optStrValue (flatten_address v)) = flatten_address v := by
  cases v with
  | null => rfl
  | dict es => rfl
  | str s => rfl
  | int n => rfl
  | num q => rfl
  | bool b => rfl

theorem normalize_date_idem (toDatetime : Value → Option Ts)
    (hrt : ∀ (u : Value) (t : Ts), toDatetime u = some t →
      toDatetime (Value.str (strftimeYmd t)) = some t)
    (v : Value) :
    (normalize_date toDatetime (optStrValue (normalize_date toDatetime v).1)).1
      = (normalize_date toDatetime v).1 := by
  by_cases hn : pdIsNull v = true
  · have h1 : normalize_date toDatetime v = (none, false) := by
      unfold normalize_date; rw [if_pos hn]
    rw [h1]; rfl
  · simp only [Bool.not_eq_true] at hn
    cases hd : toDatetime v with
    | none =>
      have h1 : normalize_date toDatetime v = (none, true) := by
        unfold normalize_date; rw [if_neg (by simp [hn]), hd]
      rw [h1]; rfl
    | some t =>
      have h1 : normalize_date toDatetime v = (some (strftimeYmd t), false) := by
        unfold normalize_date; rw [if_neg (by simp [hn]), hd]
      rw [h1]
      show (normalize_date toDatetime (Value.str (strftimeYmd t))).1
        = some (strftimeYmd t)
      unfold normalize_date
      rw [if_neg (by simp [pdIsNull]), hrt v t hd]

/-- A canonical record: the six dedupe fields of a preprocessed row. -/
structure CanonRec where
  first_name : Value
  last_name : Value
  email : Value
  phone_number : Value
  address : Value
  date_of_birth : Value

/-- Per-field normalization as dispatched by the loop of
`preprocess_source_data` (lines 100-117) for a name or email column,
including the final str-coercion pass. -/
def normFieldText (x : Value) : Value := coerceStr (optStrValue (normalize_text x))

/-- Per-field normalization for a phone column. -/
def normFieldPhone (x : Value) : Value := coerceStr (optStrValue (normalize_phone x))

/-- Per-field normalization for an address column. -/
def normFieldAddr (x : Value) : Value := coerceStr (optStrValue (flatten_address x))

/-- Per-field normalization for a date column. -/
def normFieldDate (toDatetime : Value → Option Ts) (x : Value) : Value :=
  coerceStr (optStrValue (normalize_date toDatetime x).1)

/-- Normalization of a whole record: the column loop of
`preprocess_source_data` restricted to the six dedupe fields. -/
def normRec (toDatetime : Value → Option Ts) (r : CanonRec) : CanonRec :=
  ⟨normFieldText r.first_name, normFieldText r.last_name,
   normFieldText r.email, normFieldPhone r.phone_number,
   normFieldAddr r.address, normFieldDate toDatetime r.date_of_birth⟩

theorem normFieldText_idem (x : Value) :
    normFieldText (normFieldText x) = normFieldText x := by
  simp only [normFieldText, coerce_optStrValue]
  rw [normalize_text_idem]

theorem normFieldPhone_idem (x : Value) :
    normFieldPhone (normFieldPhone x) = normFieldPhone x := by
  simp only [normFieldPhone, coerce_optStrValue]
  rw [normalize_phone_idem]

theorem normFieldAddr_idem (x : Value) :
    normFieldAddr (normFieldAddr x) = normFieldAddr x := by
  simp only [normFieldAddr, coerce_optStrValue]
  rw [flatten_address_idem]

theorem normFieldDate_idem (toDatetime : Value → Option Ts)
    (hrt : ∀ (u : Value) (t : Ts), toDatetime u = some t →
      toDatetime (Value.str (strftimeYmd t)) = some t)
    (x : Value) :
    normFieldDate toDatetime (normFieldDate toDatetime x)
      = normFieldDate toDatetime x := by
  simp only [normFieldDate, coerce_optStrValue]
  rw [normalize_date_idem toDatetime hrt]

/-- C8: normalization is deterministic and idempotent: normalizing the same
raw record twice yields an identical canonical record, and each field
normalizer `f` satisfies `f (f x) = f x` for every value `x` (for
`normalize_date` this holds provided the external permissive parser
re-parses its own `%Y-%m-%d` output to the same timestamp, which pandas
does; that round-trip is the hypothesis `hrt`). -/
theorem C8_normalization_idempotent (toDatetime : Value → Option Ts)
    (hrt : ∀ (u : Value) (t : Ts), toDatetime u = some t →
      toDatetime (Value.str (strftimeYmd t)) = some t)
    (v : Value) (r : CanonRec) :
    normalize_text (optStrValue (normalize_text v)) = normalize_text v
    ∧ normalize_phone (optStrValue (normalize_phone v)) = normalize_phone v
    ∧ flatten_address (optStrValue (flatten_address v)) = flatten_address v
    ∧ (normalize_date toDatetime (optStrValue (normalize_date toDatetime v).1)).1
        = (normalize_date toDatetime v).1
    ∧ normRec toDatetime (normRec toDatetime r) = normRec toDatetime r := by
  refine ⟨normalize_text_idem v, normalize_phone_idem v, flatten_address_idem v,
    normalize_date_idem toDatetime hrt v, ?_⟩
  simp only [normRec]
  rw [normFieldText_idem, normFieldText_idem, normFieldText_idem,
      normFieldPhone_idem, normFieldAddr_idem, normFieldDate_idem toDatetime hrt]

/-- A concrete stand-in for `pandas.to_datetime` that parses exactly the
string 1970-01-01, used to instantiate the parameterised theorems. -/
def toDatetime1970 : Value → Option Ts
  | .str s => if s = "1970-01-01".toList then some ⟨1970, 1, 1⟩ else none
  | _ => none

theorem toDatetime1970_roundtrip :
    ∀ (u : Value) (t : Ts), toDatetime1970 u = some t →
      toDatetime1970 (Value.str (strftimeYmd t)) = some t := by
  intro u t h
  cases u with
  | str s =>
    have h2 : (if s = "1970-01-01".toList
        then some (⟨1970, 1, 1⟩ : Ts) else none) = some t := h
    by_cases hs : s = "1970-01-01".toList
    · rw [if_pos hs] at h2
      have ht : (⟨1970, 1, 1⟩ : Ts) = t := by injection h2
      subst ht
      rfl
    · rw [if_neg hs] at h2; cases h2
  | null => cases h
  | int n => cases h
  | num q => cases h
  | bool b => cases h
  | dict es => cases h

/-- Witness for C8: idempotence at a concrete messy input, with the
round-trip hypothesis discharged for the concrete parser. -/
theorem C8_witness :
    normalize_text (optStrValue (normalize_text (Value.str "  John  SMITH ".toList)))
      = normalize_text (Value.str "  John  SMITH ".toList) :=
  (C8_normalization_idempotent toDatetime1970 toDatetime1970_roundtrip
    (Value.str "  John  SMITH ".toList)
    ⟨Value.str "  John  SMITH ".toList, Value.null, Value.null,
     Value.null, Value.null, Value.str "1970-01-01".toList⟩).1

/-! ### Full-name splitting (claim C7)

`preprocess_source_data` (data_preprocessing.py, lines 96-98) extracts
first and last name from a full name with the two regexes caret(backslash-S+)
and backslash-s+(.+)dollar, via `Series.str.extract` (Python `re.search`
semantics: leftmost start position wins, quantifiers are greedy with
backtracking, the dot does not match a newline, and the dollar anchor
matches at the end of the string or just before a final newline). -/

/-- The newline character, which the regex dot does not match. -/
def isNewlineCh (c : Char) : Bool := c.toNat == 10

/-- Capture of the first_name regex (line 97): a maximal nonempty run of
non-whitespace characters anchored at the start; no match (empty string or
leading whitespace) produces NaN, modelled as none. -/
def extractFirst (s : List Char) : Option (List Char) :=
  match s.takeWhile (fun c => !isSpaceCh c) with
  | [] => none
  | c :: t => some (c :: t)

/-- The group-then-dollar tail of the last_name regex: the group `(.+)`
greedily consumes one or more non-newline characters, after which the
dollar anchor must hold — at the end of the string, or just before a final
newline; greedy backtracking prefers the longer capture. -/
def dollarTail (rest : List Char) : Option (List Char) :=
  let q := rest.takeWhile (fun c => !isNewlineCh c)
  if q.length = rest.length then
    if rest.isEmpty then none else some rest
  else if q.length + 1 = rest.length ∧ 1 ≤ q.length then some q
  else none

/-- Backtracking over how many characters the whitespace quantifier
consumes, from the greedy maximum down to one. -/
def tryRunLengths (l : List Char) : Nat → Option (List Char)
  | 0 => none
  | k + 1 =>
    match dollarTail (l.drop (k + 1)) with
    | some cap => some cap
    | none => tryRunLengths l k

/-- An attempted match of the whole last_name pattern starting at the head
of `l` (which must be whitespace for the whitespace quantifier to start). -/
def matchAtWs (l : List Char) : Option (List Char) :=
  tryRunLengths l (l.takeWhile isSpaceCh).length

/-- `re.search` of the last_name regex (line 98): try every start
position from the left; only a whitespace character can start a match. -/
def extractLast : List Char → Option (List Char)
  | [] => none
  | c :: rest =>
    if isSpaceCh c then
      match matchAtWs (c :: rest) with
      | some cap => some cap
      | none => extractLast rest
    else extractLast rest

/-- Counterexample to C7 as stated: for the full name "a b\nc" the
remainder of the string after the first whitespace run is "b\nc", but
because the regex dot does not match the newline, the dollar-anchored
match at the first run fails, the search moves to the newline, and the
captured last_name is just "c". -/
theorem C7_counterexample :
    extractLast "a b\nc".toList = some "c".toList
    ∧ extractLast "a b\nc".toList ≠ some "b\nc".toList
    ∧ extractFirst "a b\nc".toList = some "a".toList := by
  refine ⟨by decide, by decide, by decide⟩

theorem extractLast_cons_not_ws (c : Char) (l : List Char)
    (hc : isSpaceCh c = false) :
    extractLast (c :: l) = extractLast l := by
  conv_lhs => rw [extractLast]
  rw [if_neg (by simp [hc])]

theorem extractLast_skip (t rest : List Char)
    (htc : ∀ c ∈ t, isSpaceCh c = false) :
    extractLast (t ++ rest) = extractLast rest := by
  induction t with
  | nil => rfl
  | cons c t2 ih =>
    show extractLast (c :: (t2 ++ rest)) = _
    rw [extractLast_cons_not_ws c _ (htc c (by simp))]
    exact ih (fun c2 h2 => htc c2 (by simp [h2]))

theorem takeWhile_append_of_head_false {p : Char → Bool} (t : List Char)
    (rest : List Char) (htc : ∀ c ∈ t, p c = true) (c0 : Char)
    (trest : List Char) (hrest : rest = c0 :: trest) (hc0 : p c0 = false) :
    (t ++ rest).takeWhile p = t := by
  rw [List.takeWhile_append]
  rw [List.takeWhile_eq_self_iff.2 htc]
  rw [if_pos rfl, hrest, List.takeWhile_cons, if_neg (by simp [hc0]),
      List.append_nil]

/-- C7 amended: for every full name of the form t ++ w ++ r where t is a
nonempty run of non-whitespace characters, w a nonempty whitespace run and
r a nonempty remainder starting with a non-whitespace character and
containing no newline, first_name is t and last_name is the entire
remainder r (including any whitespace inside r). Names with a newline in
the remainder (see the counterexample) or with a leading-whitespace /
missing / whitespace-only part produce a different or null capture. -/
theorem C7_fullname_split (t w2 r2 : List Char) (wc rc : Char)
    (ht : t ≠ [])
    (htc : ∀ c ∈ t, isSpaceCh c = false)
    (hwc : ∀ c ∈ wc :: w2, isSpaceCh c = true)
    (hrc : isSpaceCh rc = false)
    (hrn : ∀ c ∈ rc :: r2, isNewlineCh c = false) :
    extractFirst (t ++ (wc :: w2) ++ (rc :: r2)) = some t
    ∧ extractLast (t ++ (wc :: w2) ++ (rc :: r2)) = some (rc :: r2) := by
  constructor
  · unfold extractFirst
    rw [List.append_assoc]
    rw [takeWhile_append_of_head_false t ((wc :: w2) ++ (rc :: r2))
      (fun c hc => by simp [htc c hc]) wc (w2 ++ (rc :: r2)) (by simp) (by simp [hwc wc (by simp)])]
    cases t with
    | nil => exact absurd rfl ht
    | cons c0 t0 => rfl
  · rw [List.append_assoc, extractLast_skip t _ htc]
    show extractLast (wc :: (w2 ++ (rc :: r2))) = some (rc :: r2)
    unfold extractLast
    rw [if_pos (hwc wc (by simp))]
    have hmat : matchAtWs (wc :: (w2 ++ (rc :: r2))) = some (rc :: r2) := by
      unfold matchAtWs
      have hrun : ((wc :: (w2 ++ (rc :: r2))).takeWhile isSpaceCh) = wc :: w2 := by
        show ((wc :: w2) ++ (rc :: r2)).takeWhile isSpaceCh = wc :: w2
        exact takeWhile_append_of_head_false (wc :: w2) (rc :: r2) hwc rc r2 rfl hrc
      rw [hrun]
      show tryRunLengths (wc :: (w2 ++ (rc :: r2))) (w2.length + 1) = _
      unfold tryRunLengths
      have hdrop : (wc :: (w2 ++ (rc :: r2))).drop (w2.length + 1) = rc :: r2 := by
        show (w2 ++ (rc :: r2)).drop w2.length = rc :: r2
        exact List.drop_left w2 (rc :: r2)
      rw [hdrop]
      have hq : (rc :: r2).takeWhile (fun c => !isNewlineCh c) = rc :: r2 :=
        List.takeWhile_eq_self_iff.2 (fun c hc => by simp [hrn c hc])
      unfold dollarTail
      rw [hq]
      simp
    rw [hmat]

/-- Witness for the amended C7 at a concrete three-token name. -/
theorem C7_witness :
    extractFirst ("John".toList ++ (' ' :: []) ++ ('S' :: "mith Jr".toList))
      = some "John".toList
    ∧ extractLast ("John".toList ++ (' ' :: []) ++ ('S' :: "mith Jr".toList))
      = some ('S' :: "mith Jr".toList) :=
  C7_fullname_split "John".toList [] "mith Jr".toList ' ' 'S'
    (by decide) (by decide) (by decide) (by decide) (by decide)

/-! ### The deduplication pipeline (core/dedup_match.py) -/

/-- A dataframe row, as produced by `row.to_dict()`. -/
abbrev Row := List (String × Value)

/-- A source dataframe: its column set and its rows. -/
structure DataFrame where
  cols : List String
  rows : List Row

/-- The exceptions of core/dedup_match.py in structured form. The first
four constructors are the `InvalidDataError` raises (the final handler of
`prepare_dedupe_data` re-raises them with an "Error preparing data:"
message prefix, which the structured form absorbs); the last two stand for
`ModelNotFoundError` and the wrapping `DeduplicationError`. -/
inductive DedupErr : Type
  | invalidNoData : DedupErr
  | invalidNoFiles : DedupErr
  | invalidMissingCols (source : String) (missing : List String) : DedupErr
  | invalidNoRecords : DedupErr
  | modelNotFound (msg : String) : DedupErr
  | wrapped (msg : String) : DedupErr
deriving DecidableEq

/-- Whether an error is an instance of `InvalidDataError`. -/
def DedupErr.isInvalidData : DedupErr → Bool
  | .modelNotFound _ => false
  | .wrapped _ => false
  | _ => true

/-- The record key f"{source}_{row['id']}" (dedup_match.py line 60); a row
always carries its dataframe's columns, so the `id` read never fails once
the column validation has passed. -/
def recordKey (source : String) (row : Row) : String :=
  source ++ "_" ++ String.mk (pyStr ((dictGet row "id").getD .null))

/-- Assignment `combined_data[record_id] = ...` into a Python dict,
modelled as an insertion-ordered association list with unique keys: an
existing key keeps its position and receives the new value, a new key is
appended. -/
def dictAssign : List (String × Row) → String → Row → List (String × Row)
  | [], k, v => [(k, v)]
  | p :: m, k, v => if p.1 == k then (k, v) :: m else p :: dictAssign m k v

/-- Python dict lookup on the same representation. -/
def mapLookup : List (String × Row) → String → Option Row
  | [], _ => none
  | p :: m, k => if p.1 == k then some p.2 else mapLookup m k

/-- The inner row loop of `prepare_dedupe_data` (lines 59-61) for one
source, threading the accumulated `combined_data` dict. -/
def addSourceRows (source : String) (acc : List (String × Row)) (df : DataFrame) :
    List (String × Row) :=
  df.rows.foldl (fun m r => dictAssign m (recordKey source r) r) acc

/-- The required columns of every source (line 52). -/
def requiredColumns : List String := ["id", "first_name", "last_name", "date_of_birth"]

/-- The per-source loop of `prepare_dedupe_data` (lines 51-61): the
columns of each source are validated (the missing set is the set
difference `required_columns - set(df.columns)`) before its rows are
accumulated. -/
def prepareLoop : List (String × Row) → List (String × DataFrame) →
    Except DedupErr (List (String × Row))
  | acc, [] => .ok acc
  | acc, (source, df) :: rest =>
    if (requiredColumns.filter (fun c => !df.cols.contains c)).isEmpty
    then prepareLoop (addSourceRows source acc df) rest
    else .error (.invalidMissingCols source
      (requiredColumns.filter (fun c => !df.cols.contains c)))

/-- Embedding of `prepare_dedupe_data` (lines 34-68). -/
def prepare_dedupe_data (data : List (String × DataFrame)) :
    Except DedupErr (List (String × Row)) :=
  if data.isEmpty then .error .invalidNoData
  else
    match prepareLoop [] data with
    | .error e => .error e
    | .ok m => if m.isEmpty then .error .invalidNoRecords else .ok m

/-- Decimal digits of a natural number, with enough fuel to terminate
(the fuel `n + 1` always exceeds the digit count). -/
def natDigitsAux : Nat → Nat → List Char
  | 0, _ => []
  | fuel + 1, n =>
    if n < 10 then [digitCh n]
    else natDigitsAux fuel (n / 10) ++ [digitCh (n % 10)]

/-- Decimal digits of a natural number. -/
def natDigits (n : Nat) : List Char := natDigitsAux (n + 1) n

/-- Idealized rendering of the f-string directive `:.4f` (line 191): round
the exact value to four decimal places and print it with exactly four
digits after the point (the tie-breaking noise of the binary double is not
modelled). -/
def formatFixed4 (q : ℚ) : List Char :=
  (if round (q * 10000) < 0 then ['-'] else [])
    ++ natDigits ((round (q * 10000)).natAbs / 10000)
    ++ '.' :: pad4 ((round (q * 10000)).natAbs % 10000)

/-- The result-writing loop of `deduplicate_records` (lines 184-191): the
clusters are enumerated from zero, and for the cluster at index i one
output row is written per member record, each carrying the mean
`float(sum(scores)) / len(scores)` of the cluster's scores formatted to
four decimal places. The header line and the file handle are not
modelled. -/
def writeRows : Nat → List (List String × List ℚ) → List (Nat × String × List Char)
  | _, [] => []
  | i, (records, scores) :: rest =>
    records.map (fun r => (i, r, formatFixed4 (scores.sum / (scores.length : ℚ))))
      ++ writeRows (i + 1) rest

/-- Embedding of the control flow of `deduplicate_records`
(lines 159-193) when the caller supplies the data. The external dedupe
model (`setup_dedupe` followed by `partition`) is the parameter `part`,
which receives the prepared records and the threshold value read from the
configuration; its clusters go to the result writer. The parquet-loading
branch (`data=None`) and the file I/O are not modelled. -/
def deduplicate_records
    (part : List (String × Row) → Value → List (List String × List ℚ))
    (cfg : Value) (data : List (String × DataFrame)) :
    Except DedupErr (List (Nat × String × List Char)) :=
  if data.isEmpty then .error .invalidNoFiles
  else
    match prepare_dedupe_data data with
    | .error e => .error e
    | .ok m =>
      .ok (writeRows 0 (part m (configGet cfg ["dedupe", "threshold"] (.num (1/2)))))

/-! ### Claim C4: missing required columns abort the run -/

theorem prepareLoop_error_of_missing :
    ∀ (data : List (String × DataFrame)) (acc : List (String × Row))
      (s : String) (df : DataFrame), (s, df) ∈ data →
      requiredColumns.filter (fun c => !df.cols.contains c) ≠ [] →
      ∃ s2 m2, prepareLoop acc data = .error (.invalidMissingCols s2 m2) ∧ m2 ≠ [] := by
  intro data
  induction data with
  | nil => intro acc s df hmem; cases hmem
  | cons hd rest ih =>
    intro acc s df hmem hmiss
    obtain ⟨s0, df0⟩ := hd
    show ∃ s2 m2, prepareLoop acc ((s0, df0) :: rest) = _ ∧ _
    unfold prepareLoop
    by_cases h0 : (requiredColumns.filter (fun c => !df0.cols.contains c)).isEmpty = true
    · rw [if_pos h0]
      have hmem2 : (s, df) ∈ rest := by
        cases List.mem_cons.1 hmem with
        | inl he =>
          exfalso
          have hdf : df = df0 := congrArg Prod.snd he
          rw [hdf] at hmiss
          exact hmiss (List.isEmpty_iff.1 h0)
        | inr h2 => exact h2
      exact ih (addSourceRows s0 acc df0) s df hmem2 hmiss
    · rw [if_neg h0]
      refine ⟨s0, _, rfl, ?_⟩
      intro he
      exact h0 (by rw [he]; rfl)

/-- C4: for every input where some source's dataframe is missing any of
the required fields (`id`, `first_name`, `last_name`, `date_of_birth`),
`prepare_dedupe_data` fails with an `InvalidDataError`, and
`deduplicate_records` propagates that error before any clustering or
result writing happens — its result carries no output rows, so no partial
results exist on failure. -/
theorem C4_missing_required_field_aborts
    (part : List (String × Row) → Value → List (List String × List ℚ))
    (cfg : Value) (data : List (String × DataFrame))
    (s : String) (df : DataFrame) (hmem : (s, df) ∈ data)
    (c : String) (hc : c ∈ requiredColumns) (hmiss : df.cols.contains c = false) :
    ∃ e, prepare_dedupe_data data = .error e ∧ e.isInvalidData = true
      ∧ deduplicate_records part cfg data = .error e := by
  have hfil : requiredColumns.filter (fun c2 => !df.cols.contains c2) ≠ [] := by
    have hb : (!df.cols.contains c) = true := by rw [hmiss]; rfl
    have hin : c ∈ requiredColumns.filter (fun c2 => !df.cols.contains c2) :=
      List.mem_filter.2 ⟨hc, hb⟩
    exact List.ne_nil_of_mem hin
  obtain ⟨s2, m2, hloop, hm2⟩ := prepareLoop_error_of_missing data [] s df hmem hfil
  have hdne : data.isEmpty = false := by
    cases data with
    | nil => cases hmem
    | cons hd rest => rfl
  have hp : prepare_dedupe_data data = .error (.invalidMissingCols s2 m2) := by
    unfold prepare_dedupe_data
    rw [if_neg (by simp [hdne]), hloop]
  refine ⟨.invalidMissingCols s2 m2, hp, rfl, ?_⟩
  unfold deduplicate_records
  rw [if_neg (by simp [hdne]), hp]

/-- A dataframe lacking the required column `last_name`. -/
def dfNoLastName : DataFrame :=
  ⟨["id", "first_name", "date_of_birth"],
   [[("id", Value.str "1".toList), ("first_name", Value.str "ann".toList),
     ("date_of_birth", Value.str "1970-01-01".toList)]]⟩

/-- A partition probe that clusters everything into one cluster labelled
"T" whose single score echoes the numeric threshold it was given. -/
def partProbe : List (String × Row) → Value → List (List String × List ℚ) :=
  fun _ t => [(["T"], [match t with | .num q => q | _ => 0])]

/-- A configuration with dedupe.threshold set to 1.5, outside (0,1). -/
def cfgThreshold15 : Value :=
  .dict [("dedupe", .dict [("threshold", .num (Rat.divInt 3 2))])]

/-- Witness for C4 at a concrete source missing `last_name`. -/
theorem C4_witness :
    ∃ e, prepare_dedupe_data [("clinic", dfNoLastName)] = .error e
      ∧ e.isInvalidData = true
      ∧ deduplicate_records partProbe cfgThreshold15 [("clinic", dfNoLastName)]
          = .error e :=
  C4_missing_required_field_aborts partProbe cfgThreshold15
    [("clinic", dfNoLastName)] "clinic" dfNoLastName (by simp)
    "last_name" (by decide) (by decide)

/-! ### Claim C10: duplicate ids, last row wins -/

theorem getLast?_cons_or {α : Type} (a : α) (l : List α) :
    (a :: l).getLast? = l.getLast?.or (some a) := by
  induction l generalizing a with
  | nil => rfl
  | cons b l2 ih =>
    rw [List.getLast?_cons_cons, ih b]
    cases hg : l2.getLast? <;> rfl

theorem mapLookup_dictAssign (m : List (String × Row)) (k k2 : String) (v : Row) :
    mapLookup (dictAssign m k v) k2 = if k2 = k then some v else mapLookup m k2 := by
  induction m with
  | nil =>
    show mapLookup [(k, v)] k2 = _
    by_cases h : k2 = k
    · subst h
      show (if (k2 == k2) = true then some v else mapLookup [] k2) = _
      rw [if_pos (by simp), if_pos rfl]
    · show (if (k == k2) = true then some v else mapLookup [] k2) = _
      rw [if_neg (by simp [Ne.symm h]), if_neg h]
  | cons p m2 ih =>
    by_cases hp : (p.1 == k) = true
    · have hd : dictAssign (p :: m2) k v = (k, v) :: m2 := by
        show (if (p.1 == k) = true then (k, v) :: m2 else p :: dictAssign m2 k v) = _
        rw [if_pos hp]
      rw [hd]
      have hpk : p.1 = k := by simpa using hp
      by_cases h : k2 = k
      · subst h
        show (if (k2 == k2) = true then some v else mapLookup m2 k2) = _
        rw [if_pos (by simp), if_pos rfl]
      · show (if (k == k2) = true then some v else mapLookup m2 k2) = _
        rw [if_neg (by simp [Ne.symm h]), if_neg h]
        show _ = (if (p.1 == k2) = true then some p.2 else mapLookup m2 k2)
        rw [if_neg (by simp [hpk, Ne.symm h])]
    · have hd : dictAssign (p :: m2) k v = p :: dictAssign m2 k v := by
        show (if (p.1 == k) = true then (k, v) :: m2 else p :: dictAssign m2 k v) = _
        rw [if_neg hp]
      rw [hd]
      have hpk : ¬ p.1 = k := by simpa using hp
      by_cases hq : (p.1 == k2) = true
      · have hq2 : p.1 = k2 := by simpa using hq
        show (if (p.1 == k2) = true then some p.2 else mapLookup (dictAssign m2 k v) k2) = _
        rw [if_pos hq, if_neg (fun he => hpk (hq2.trans he))]
        show _ = (if (p.1 == k2) = true then some p.2 else mapLookup m2 k2)
        rw [if_pos hq]
      · show (if (p.1 == k2) = true then some p.2 else mapLookup (dictAssign m2 k v) k2) = _
        rw [if_neg hq, ih]
        by_cases h : k2 = k
        · rw [if_pos h, if_pos h]
        · rw [if_neg h, if_neg h]
          show _ = (if (p.1 == k2) = true then some p.2 else mapLookup m2 k2)
          rw [if_neg hq]

theorem mapLookup_addSourceRows (source : String) :
    ∀ (rows : List Row) (acc : List (String × Row)) (k : String),
      mapLookup (rows.foldl (fun m r => dictAssign m (recordKey source r) r) acc) k
        = ((rows.filter (fun r => recordKey source r == k)).getLast?).or
            (mapLookup acc k) := by
  intro rows
  induction rows with
  | nil => intro acc k; rfl
  | cons r rest ih =>
    intro acc k
    show mapLookup (rest.foldl _ (dictAssign acc (recordKey source r) r)) k = _
    rw [ih, mapLookup_dictAssign, List.filter_cons]
    by_cases h : (recordKey source r == k) = true
    · have hk : k = recordKey source r := (eq_of_beq h).symm
      rw [if_pos h, if_pos hk, getLast?_cons_or]
      cases hg : (rest.filter (fun r2 => recordKey source r2 == k)).getLast? <;> rfl
    · have hk : ¬ k = recordKey source r :=
        fun he => h (by rw [he]; exact beq_self_eq_true _)
      rw [if_neg h, if_neg hk]

theorem length_dictAssign (m : List (String × Row)) (k : String) (v : Row) :
    (dictAssign m k v).length ≤ m.length + 1 := by
  induction m with
  | nil => simp [dictAssign]
  | cons p m2 ih =>
    unfold dictAssign
    by_cases hp : (p.1 == k) = true
    · rw [if_pos hp]; simp
    · rw [if_neg hp]
      simp only [List.length_cons]
      omega

theorem length_addSourceRows (source : String) :
    ∀ (rows : List Row) (acc : List (String × Row)),
      (rows.foldl (fun m r => dictAssign m (recordKey source r) r) acc).length
        ≤ acc.length + rows.length := by
  intro rows
  induction rows with
  | nil => intro acc; simp
  | cons r rest ih =>
    intro acc
    have h1 := ih (dictAssign acc (recordKey source r) r)
    have h2 := length_dictAssign acc (recordKey source r) r
    simp only [List.length_cons]
    calc (rest.foldl (fun m r2 => dictAssign m (recordKey source r2) r2)
            (dictAssign acc (recordKey source r) r)).length
        ≤ (dictAssign acc (recordKey source r) r).length + rest.length := h1
      _ ≤ acc.length + rest.length + 1 := by omega
      _ = acc.length + (rest.length + 1) := by omega

theorem dictAssign_ne_nil (m : List (String × Row)) (k : String) (v : Row) :
    dictAssign m k v ≠ [] := by
  cases m with
  | nil => simp [dictAssign]
  | cons p m2 =>
    unfold dictAssign
    by_cases hp : (p.1 == k) = true
    · rw [if_pos hp]; simp
    · rw [if_neg hp]; simp

theorem addSourceRows_ne_nil (source : String) :
    ∀ (rows : List Row) (acc : List (String × Row)),
      acc ≠ [] ∨ rows ≠ [] →
      rows.foldl (fun m r => dictAssign m (recordKey source r) r) acc ≠ [] := by
  intro rows
  induction rows with
  | nil =>
    intro acc h
    cases h with
    | inl h1 => exact h1
    | inr h2 => exact absurd rfl h2
  | cons r rest ih =>
    intro acc h
    exact ih (dictAssign acc (recordKey source r) r)
      (Or.inl (dictAssign_ne_nil acc (recordKey source r) r))

/-- C10: for a source dataframe containing several rows with the same
`id`, `prepare_dedupe_data` keeps, under the key `"<source>_<id>"`, only
the data of the last such row (the dict assignment silently overwrites
earlier rows), and the returned mapping can have fewer entries than the
dataframe has rows. -/
theorem C10_duplicate_ids_last_row_wins (source : String) (df : DataFrame)
    (hcols : (requiredColumns.filter (fun c => !df.cols.contains c)).isEmpty = true)
    (hrows : df.rows ≠ []) :
    prepare_dedupe_data [(source, df)] = .ok (addSourceRows source [] df)
    ∧ (∀ k, mapLookup (addSourceRows source [] df) k
        = (df.rows.filter (fun r => recordKey source r == k)).getLast?)
    ∧ (addSourceRows source [] df).length ≤ df.rows.length := by
  refine ⟨?_, ?_, ?_⟩
  · have hne : addSourceRows source [] df ≠ [] :=
      addSourceRows_ne_nil source df.rows [] (Or.inr hrows)
    unfold prepare_dedupe_data
    rw [if_neg (by simp)]
    have hloop : prepareLoop [] [(source, df)] = .ok (addSourceRows source [] df) := by
      unfold prepareLoop
      rw [if_pos hcols]
      rfl
    rw [hloop]
    show (if (addSourceRows source [] df).isEmpty = true
        then Except.error DedupErr.invalidNoRecords
        else Except.ok (addSourceRows source [] df))
      = Except.ok (addSourceRows source [] df)
    rw [if_neg (fun hie => hne (List.isEmpty_iff.1 hie))]
  · intro k
    have h := mapLookup_addSourceRows source df.rows [] k
    unfold addSourceRows
    rw [h]
    cases hg : (df.rows.filter (fun r => recordKey source r == k)).getLast? <;> rfl
  · have h := length_addSourceRows source df.rows []
    unfold addSourceRows
    simpa using h

/-- A dataframe whose two rows share the id 1. -/
def dfDupIds : DataFrame :=
  ⟨["id", "first_name", "last_name", "date_of_birth"],
   [[("id", Value.str "1".toList), ("first_name", Value.str "ann".toList)],
    [("id", Value.str "1".toList), ("first_name", Value.str "bob".toList)]]⟩

/-- Witness for C10: on a two-row dataframe with a duplicated id the
mapping keeps one entry, bounded by the row count. -/
theorem C10_witness :
    prepare_dedupe_data [("clinic", dfDupIds)] = .ok (addSourceRows "clinic" [] dfDupIds)
    ∧ (∀ k, mapLookup (addSourceRows "clinic" [] dfDupIds) k
        = (dfDupIds.rows.filter (fun r => recordKey "clinic" r == k)).getLast?)
    ∧ (addSourceRows "clinic" [] dfDupIds).length ≤ dfDupIds.rows.length :=
  C10_duplicate_ids_last_row_wins "clinic" dfDupIds (by decide)
    (List.cons_ne_nil _ _)

/-! ### Claim C2: the threshold is not validated -/

/-- Counterexample to C2 as stated: with `dedupe.threshold` configured as
1.5 — a value outside the open interval (0,1), as the second conjunct
records — and valid one-row data, the run does not fail at startup or
anywhere else: it completes successfully and writes a result row whose
confidence is the probe's echo of the threshold it was clustered with,
1.5000 — the configured out-of-range value, used unchanged. -/
theorem C2_counterexample :
    deduplicate_records partProbe cfgThreshold15
      [("clinic", ⟨["id", "first_name", "last_name", "date_of_birth"],
        [[("id", Value.str "1".toList)]]⟩)]
      = .ok [(0, "T", "1.5000".toList)]
    ∧ ¬ ((0 : ℚ) < Rat.divInt 3 2 ∧ Rat.divInt 3 2 < 1) := by
  constructor
  · have harg : (([Rat.divInt 3 2] : List ℚ).sum
        / ((([Rat.divInt 3 2] : List ℚ).length : Nat) : ℚ)) = Rat.divInt 3 2 := by
      simp
    have hr : round (Rat.divInt 3 2 * 10000) = 15000 := by
      rw [Rat.divInt_eq_div, round_eq]; norm_num
    have hfmt : formatFixed4 (([Rat.divInt 3 2] : List ℚ).sum
        / ((([Rat.divInt 3 2] : List ℚ).length : Nat) : ℚ)) = "1.5000".toList := by
      rw [harg]
      unfold formatFixed4
      rw [hr]
      rfl
    show Except.ok [(0, "T", formatFixed4 (([Rat.divInt 3 2] : List ℚ).sum
        / ((([Rat.divInt 3 2] : List ℚ).length : Nat) : ℚ)))] = _
    rw [hfmt]
  · decide

/-- C2 amended: `deduplicate_records` performs no validation of the
clustering threshold: for every configuration whose data passes
preparation, the run reaches clustering and passes it exactly the value
read by `config.get("dedupe.threshold", 0.5)` — so a value outside (0,1)
is used for clustering unchanged; furthermore a falsy stored value such
as 0.0 is silently replaced by the default 0.5 by `Config.get` rather
than rejected (second conjunct). -/
theorem C2_threshold_not_validated
    (part : List (String × Row) → Value → List (List String × List ℚ))
    (cfg : Value) (data : List (String × DataFrame)) (m : List (String × Row))
    (hprep : prepare_dedupe_data data = .ok m) :
    deduplicate_records part cfg data
      = .ok (writeRows 0 (part m (configGet cfg ["dedupe", "threshold"] (.num (1/2)))))
    ∧ configGet exampleThresholdZeroCfg ["dedupe", "threshold"] (Value.num (1/2))
        = Value.num (1/2) := by
  have hdne : data.isEmpty = false := by
    cases data with
    | nil =>
      exfalso
      have : prepare_dedupe_data [] = .error DedupErr.invalidNoData := rfl
      rw [this] at hprep
      cases hprep
    | cons hd rest => rfl
  constructor
  · unfold deduplicate_records
    rw [if_neg (by simp [hdne]), hprep]
  · rfl

/-- Witness for the amended C2, at the out-of-range threshold 1.5. -/
theorem C2_witness :
    (deduplicate_records partProbe cfgThreshold15
      [("clinic", ⟨["id", "first_name", "last_name", "date_of_birth"],
        [[("id", Value.str "1".toList)]]⟩)]
      = .ok (writeRows 0 (partProbe
          [("clinic_1", [("id", Value.str "1".toList)])]
          (configGet cfgThreshold15 ["dedupe", "threshold"] (.num (1/2))))))
    ∧ configGet exampleThresholdZeroCfg ["dedupe", "threshold"] (Value.num (1/2))
        = Value.num (1/2) :=
  C2_threshold_not_validated partProbe cfgThreshold15
    [("clinic", ⟨["id", "first_name", "last_name", "date_of_birth"],
      [[("id", Value.str "1".toList)]]⟩)]
    [("clinic_1", [("id", Value.str "1".toList)])] (by rfl)

/-! ### Claim C3: exit status after a failed deduplication step -/

/-- Embedding of `run_deduplication` (__main__.py lines 64-73): every
error raised by the deduplication step is caught, an error message is
logged, and None is returned instead of re-raising. -/
def run_deduplication (res : Except DedupErr (List (Nat × String × List Char))) :
    Option (List (Nat × String × List Char)) × List String :=
  match res with
  | .ok r => (some r, ["Deduplication completed successfully"])
  | .error _ => (none, ["Deduplication failed"])

/-- Embedding of `main` (__main__.py lines 137-175) for a run whose step
list is the deduplication step: only an error escaping a step or the
configuration loading reaches main's handler and produces exit code 1;
each step's return value is discarded and main returns 0 once the loop
completes. -/
def mainExitCode (cfgLoad : Except String Value)
    (res : Except DedupErr (List (Nat × String × List Char))) : Nat × List String :=
  match cfgLoad with
  | .error e => (1, ["An error occurred: " ++ e])
  | .ok _ => (0, (run_deduplication res).2)

/-- C3 is violated by the code: when the deduplication step fails (here
with `InvalidDataError` "No data files found" on empty data),
`run_deduplication` swallows the error — logging "Deduplication failed" —
and `main` completes its step loop and returns exit status 0, despite its
own docstring promising 1 for an error. -/
theorem C3_exit_zero_after_failed_step :
    deduplicate_records partProbe cfgThreshold15 [] = .error DedupErr.invalidNoFiles
    ∧ (mainExitCode (.ok cfgThreshold15)
        (deduplicate_records partProbe cfgThreshold15 [])).1 = 0
    ∧ (mainExitCode (.ok cfgThreshold15)
        (deduplicate_records partProbe cfgThreshold15 [])).2
        = ["Deduplication failed"] := by
  exact ⟨rfl, rfl, rfl⟩

/-! ### Claim C5: model persistence is not an atomic replace -/

/-- File system operations, as performed while persisting the model. -/
inductive FileOp : Type
  | makeDirs (path : String) : FileOp
  | openWrite (path : String) : FileOp
  | writeContent (path : String) : FileOp
  | closeFile (path : String) : FileOp
  | rename (src dst : String) : FileOp
deriving DecidableEq

/-- The model-settings path of `setup_dedupe` (dedup_match.py line 87),
relative to the configured models directory. -/
def settingsPath : String := "models/dedupe_model_settings"

/-- The file operations of `setup_dedupe`'s save branch (lines 117-120):
`os.makedirs` on the parent directory, then a plain
`open(settings_file, "wb")`, `write_settings`, and the close at the end of
the with-block — all on the final path itself. -/
def saveModelOps : List FileOp :=
  [.makeDirs "models", .openWrite settingsPath,
   .writeContent settingsPath, .closeFile settingsPath]

/-- Whether an operation opens or writes the given path directly. -/
def FileOp.touchesForWrite (p : String) : FileOp → Bool
  | .openWrite q => q == p
  | .writeContent q => q == p
  | _ => false

/-- Whether an operation is a rename. -/
def FileOp.isRename : FileOp → Bool
  | .rename _ _ => true
  | _ => false

/-- The write-temp-then-rename discipline for a final path: the final path
is never opened or written directly, and it is produced by renaming a
distinct temporary file onto it. -/
def atomicReplace (finalPath : String) (ops : List FileOp) : Prop :=
  (∀ op ∈ ops, op.touchesForWrite finalPath = false)
  ∧ ∃ tmp, tmp ≠ finalPath ∧ FileOp.rename tmp finalPath ∈ ops

/-- Counterexample to C5: the save branch of `setup_dedupe` opens the
model path itself for writing, so it is not a write-temp-then-rename
replace. -/
theorem C5_counterexample : ¬ atomicReplace settingsPath saveModelOps := by
  intro h
  have h2 := h.1 (.openWrite settingsPath) (by simp [saveModelOps])
  simp [FileOp.touchesForWrite] at h2

/-- C5 amended: when training succeeds the model artifact is written
directly to the model path (plain open-for-write, write, close) with no
temporary file and no rename anywhere in the sequence, so a concurrent
reader of the path could observe a partially written artifact. -/
theorem C5_model_saved_by_direct_write :
    FileOp.openWrite settingsPath ∈ saveModelOps
    ∧ FileOp.writeContent settingsPath ∈ saveModelOps
    ∧ ∀ op ∈ saveModelOps, op.isRename = false := by
  decide

/-! ### Claim C1: the result writer over the spec-modelled clusterer

The graph clustering itself is performed by the external dedupe library
(`StaticDedupe.partition`), which is not part of this repository; §4.5 of
the specification defines it, and the definitions below are modelled from
the spec accordingly. -/

/-- A scored candidate pair: two record ids and a match probability. -/
abbrev ScoredPair := String × String × ℚ

/-- Modelled from the spec: the qualifying edges at threshold τ — every
scored pair whose probability is at least the threshold. -/
def qualifyingEdges (pairs : List ScoredPair) (tau : ℚ) : List ScoredPair :=
  pairs.filter (fun p => tau ≤ p.2.2)

/-- Modelled from the spec: union of the components containing the two
endpoints of an edge (union-find's union on a list of components). -/
def mergeComps (comps : List (List String)) (a b : String) : List (List String) :=
  let ca := (comps.find? (fun c => c.contains a)).getD [a]
  let cb := (comps.find? (fun c => c.contains b)).getD [b]
  if ca = cb then comps
  else (ca ++ cb) :: comps.filter (fun c => !(c == ca || c == cb))

/-- Modelled from the spec: connected components of the qualifying-edge
graph over the record universe; records touched by no qualifying edge stay
singleton clusters. -/
def specComponents (recordUniverse : List String) (pairs : List ScoredPair)
    (tau : ℚ) : List (List String) :=
  (qualifyingEdges pairs tau).foldl (fun cs p => mergeComps cs p.1 p.2.1)
    (recordUniverse.map (fun r => [r]))

/-- Modelled from the spec: each cluster paired with the probabilities of
all qualifying edges whose both endpoints lie in it — the `scores` the
writer receives for that cluster, whose arithmetic mean is the cluster
confidence. -/
def specClusters (recordUniverse : List String) (pairs : List ScoredPair)
    (tau : ℚ) : List (List String × List ℚ) :=
  (specComponents recordUniverse pairs tau).map
    (fun c => (c, ((qualifyingEdges pairs tau).filter
        (fun p => c.contains p.1 && c.contains p.2.1)).map (fun p => p.2.2)))

theorem writeRows_start_le (cl : List (List String × List ℚ)) :
    ∀ (k : Nat), ∀ row ∈ writeRows k cl, k ≤ row.1 := by
  induction cl with
  | nil => intro k row h; simp [writeRows] at h
  | cons c rest ih =>
    intro k row h
    obtain ⟨recs, scores⟩ := c
    rw [show writeRows k ((recs, scores) :: rest)
        = recs.map (fun r => (k, r, formatFixed4 (scores.sum / (scores.length : ℚ))))
          ++ writeRows (k + 1) rest from rfl] at h
    rw [List.mem_append] at h
    cases h with
    | inl h1 =>
      obtain ⟨r, hr, he⟩ := List.mem_map.1 h1
      subst he
      exact Nat.le_refl k
    | inr h2 =>
      have h3 := ih (k + 1) row h2
      omega

theorem writeRows_block :
    ∀ (cl : List (List String × List ℚ)) (k i : Nat)
      (recs : List String) (scores : List ℚ),
      cl.get? i = some (recs, scores) →
      ∃ pre post,
        writeRows k cl
          = pre ++ recs.map (fun r =>
              (k + i, r, formatFixed4 (scores.sum / (scores.length : ℚ)))) ++ post
        ∧ (∀ row ∈ pre, row.1 ≠ k + i) ∧ (∀ row ∈ post, row.1 ≠ k + i) := by
  intro cl
  induction cl with
  | nil => intro k i recs scores h; simp at h
  | cons c rest ih =>
    intro k i recs scores h
    obtain ⟨recs0, scores0⟩ := c
    cases i with
    | zero =>
      rw [List.get?_cons_zero] at h
      injection h with h2
      have h3 : recs0 = recs := congrArg Prod.fst h2
      have h4 : scores0 = scores := congrArg Prod.snd h2
      subst h3; subst h4
      refine ⟨[], writeRows (k + 1) rest, ?_, by simp, ?_⟩
      · rw [Nat.add_zero]
        rfl
      · intro row hr
        have h5 := writeRows_start_le rest (k + 1) row hr
        omega
    | succ j =>
      rw [List.get?_cons_succ] at h
      obtain ⟨pre, post, he, hpre, hpost⟩ := ih (k + 1) j recs scores h
      have he2 : writeRows (k + 1) rest
          = pre ++ recs.map (fun r =>
              (k + (j + 1), r, formatFixed4 (scores.sum / (scores.length : ℚ)))) ++ post := by
        rw [show k + (j + 1) = k + 1 + j from by omega]
        exact he
      refine ⟨recs0.map (fun r =>
          (k, r, formatFixed4 (scores0.sum / (scores0.length : ℚ)))) ++ pre,
        post, ?_, ?_, ?_⟩
      · show recs0.map _ ++ writeRows (k + 1) rest = _
        rw [he2]
        simp [List.append_assoc]
      · intro row hr
        rw [List.mem_append] at hr
        cases hr with
        | inl h1 =>
          obtain ⟨r, _, he3⟩ := List.mem_map.1 h1
          subst he3
          show k ≠ k + (j + 1)
          omega
        | inr h2 =>
          have h3 := hpre row h2
          omega
      · intro row hr
        have h3 := hpost row hr
        omega

theorem writeRows_filter_block
    (cl : List (List String × List ℚ)) (i : Nat) (recs : List String)
    (scores : List ℚ) (h : cl.get? i = some (recs, scores)) :
    (writeRows 0 cl).filter (fun row => row.1 == i)
      = recs.map (fun r => (i, r, formatFixed4 (scores.sum / (scores.length : ℚ)))) := by
  obtain ⟨pre, post, he, hpre, hpost⟩ := writeRows_block cl 0 i recs scores h
  rw [Nat.zero_add] at he hpre hpost
  rw [he, List.filter_append, List.filter_append]
  have hpre2 : pre.filter (fun row => row.1 == i) = [] := by
    rw [List.filter_eq_nil]
    intro row hr
    simp [hpre row hr]
  have hpost2 : post.filter (fun row => row.1 == i) = [] := by
    rw [List.filter_eq_nil]
    intro row hr
    simp [hpost row hr]
  have hblk : (recs.map (fun r =>
      (i, r, formatFixed4 (scores.sum / (scores.length : ℚ))))).filter
        (fun row => row.1 == i)
      = recs.map (fun r => (i, r, formatFixed4 (scores.sum / (scores.length : ℚ)))) := by
    rw [List.filter_eq_self]
    intro row hr
    obtain ⟨r, _, he3⟩ := List.mem_map.1 hr
    subst he3
    simp
  rw [hpre2, hpost2, hblk, List.nil_append, List.append_nil]

/-- The number of characters after the (last) decimal point. -/
def decimalsAfterPoint (s : List Char) : Nat :=
  (s.reverse.takeWhile (fun c => !(c == '.'))).length

theorem digitCh_not_dot (m : Nat) : (digitCh m == '.') = false := by
  have h := isDigitCh_digitCh m
  simp only [isDigitCh, Bool.and_eq_true, decide_eq_true_eq] at h
  rw [beq_eq_false_iff_ne]
  intro he
  have h46 : ('.' : Char).toNat = 46 := rfl
  rw [he, h46] at h
  omega

theorem natDigitsAux_not_dot :
    ∀ (fuel n : Nat) (c : Char), c ∈ natDigitsAux fuel n → (c == '.') = false := by
  intro fuel
  induction fuel with
  | zero => intro n c h; cases h
  | succ f ih =>
    intro n c h
    unfold natDigitsAux at h
    by_cases hn : n < 10
    · rw [if_pos hn] at h
      simp only [List.mem_singleton] at h
      rw [h]
      exact digitCh_not_dot n
    · rw [if_neg hn, List.mem_append] at h
      cases h with
      | inl h1 => exact ih (n / 10) c h1
      | inr h2 =>
        simp only [List.mem_singleton] at h2
        rw [h2]
        exact digitCh_not_dot (n % 10)

theorem pad4_not_dot (n : Nat) (c : Char) (h : c ∈ pad4 n) : (c == '.') = false := by
  simp only [pad4, List.mem_cons, List.mem_singleton, List.not_mem_nil, or_false] at h
  rcases h with h | h | h | h <;> (rw [h]; exact digitCh_not_dot _)

theorem decimalsAfterPoint_append_pad4 (x : List Char) (n : Nat) :
    decimalsAfterPoint (x ++ '.' :: pad4 n) = 4 := by
  unfold decimalsAfterPoint
  rw [List.reverse_append, List.reverse_cons, List.append_assoc,
    List.singleton_append]
  rw [takeWhile_append_of_head_false ((pad4 n).reverse) ('.' :: x.reverse)
    (fun c hc => by
      rw [List.mem_reverse] at hc
      simp [pad4_not_dot n c hc])
    '.' x.reverse rfl (by simp)]
  rw [List.length_reverse]
  rfl

theorem decimalsAfterPoint_formatFixed4 (q : ℚ) :
    decimalsAfterPoint (formatFixed4 q) = 4 := by
  unfold formatFixed4
  exact decimalsAfterPoint_append_pad4 _ _

/-- C1: for every cluster produced by the (spec-modelled) clusterer with
at least one qualifying internal edge, the writer emits exactly one row
per member record, contiguously (grouped by cluster), labelled with the
integer enumeration index of the cluster; every row of the cluster carries
the same confidence value — the arithmetic mean of the probabilities of
all qualifying edges whose both endpoints lie in that cluster — formatted
with exactly four digits after the decimal point. (The nonemptiness
hypothesis reflects that the mean is undefined for an edgeless cluster;
the external library always supplies a nonempty score list.) -/
theorem C1_writer_one_row_per_member (recordUniverse : List String)
    (pairs : List ScoredPair) (tau : ℚ) (i : Nat)
    (recs : List String) (scores : List ℚ)
    (hget : (specClusters recordUniverse pairs tau).get? i = some (recs, scores))
    (hne : scores ≠ []) :
    scores = ((qualifyingEdges pairs tau).filter
        (fun p => recs.contains p.1 && recs.contains p.2.1)).map (fun p => p.2.2)
    ∧ (∃ pre post,
        writeRows 0 (specClusters recordUniverse pairs tau)
          = pre ++ recs.map (fun r =>
              (i, r, formatFixed4 (scores.sum / (scores.length : ℚ)))) ++ post
        ∧ (∀ row ∈ pre, row.1 ≠ i) ∧ (∀ row ∈ post, row.1 ≠ i))
    ∧ (writeRows 0 (specClusters recordUniverse pairs tau)).filter
        (fun row => row.1 == i)
        = recs.map (fun r => (i, r, formatFixed4 (scores.sum / (scores.length : ℚ))))
    ∧ decimalsAfterPoint (formatFixed4 (scores.sum / (scores.length : ℚ))) = 4 := by
  refine ⟨?_, ?_, writeRows_filter_block _ i recs scores hget,
    decimalsAfterPoint_formatFixed4 _⟩
  · unfold specClusters at hget
    rw [List.get?_map] at hget
    cases hc : (specComponents recordUniverse pairs tau).get? i with
    | none => rw [hc] at hget; cases hget
    | some c =>
      rw [hc] at hget
      injection hget with h2
      have hr : c = recs := congrArg Prod.fst h2
      have hs : ((qualifyingEdges pairs tau).filter
          (fun p => c.contains p.1 && c.contains p.2.1)).map (fun p => p.2.2)
            = scores := congrArg Prod.snd h2
      rw [← hs, ← hr]
  · obtain ⟨pre, post, he, hpre, hpost⟩ :=
      writeRows_block (specClusters recordUniverse pairs tau) 0 i recs scores hget
    rw [Nat.zero_add] at he hpre hpost
    exact ⟨pre, post, he, hpre, hpost⟩

/-- Witness for C1 on a two-record universe with one qualifying edge. -/
theorem C1_witness :
    (writeRows 0 (specClusters ["a", "b"]
        [("a", "b", Rat.divInt 4 5)] (Rat.divInt 1 2))).filter
      (fun row => row.1 == 0)
      = ["a", "b"].map (fun r => (0, r,
          formatFixed4 ((([Rat.divInt 4 5] : List ℚ).sum)
            / ((([Rat.divInt 4 5] : List ℚ).length : Nat) : ℚ)))) :=
  (C1_writer_one_row_per_member ["a", "b"] [("a", "b", Rat.divInt 4 5)]
    (Rat.divInt 1 2) 0 ["a", "b"] [Rat.divInt 4 5] (by rfl)
    (List.cons_ne_nil _ _)).2.2.1

end MdpDedupe
